import Mathlib

/-!
# Verification of the Blues device-discovery engine

A shallow embedding of the device discovery and liveness tracking engine of
the Blues BlueZ client library (`src/adapter.rs` and `src/device.rs`), and
proofs of the spec's testable properties about it.

The embedding models:

* `PropertyName` and `Changes` (the property-change multiplexer) from
  `src/device.rs`, with `Changes::wait` as a pure function over the
  remaining notification batches of the underlying
  `PropertiesChangedStream`;
* `DeviceSet`, `Modification`, `DeviceSetChange` and `DeviceStream` from
  `src/adapter.rs`, with the select-race in `DeviceSet::next_modification`
  as an inductive step relation `NextMod` (the race between the filtered
  add/remove signal stream and the per-device `wait` futures is genuine
  scheduler nondeterminism, so the call is a relation, not a function);
* multi-call behaviour of `DeviceStream::next` as a trace relation `Run`.

Streams are modelled as the list of their remaining items plus an `ended`
flag; an exhausted list with `ended = false` corresponds to a stream whose
`next()` is pending indefinitely.
-/

namespace Blues

/-- Model of `PropertyName` from `src/device.rs`: the closed enumeration
of tracked device properties. -/
inductive PropertyName
  | Alias
  | Rssi
  | ServiceUuids
  | IsConnected
deriving DecidableEq, Repr

/-- Model of `PropertyName::from_str` from `src/device.rs`. -/
def PropertyName.fromStr : String → Option PropertyName
  | "Alias" => some .Alias
  | "RSSI" => some .Rssi
  | "UUIDs" => some .ServiceUuids
  | "Connected" => some .IsConnected
  | _ => none

/-- One `PropertiesChanged` notification message as consumed by
`Changes::wait` in `src/device.rs`. `argsOk` models whether
`changed.args()` succeeds; only the keys of `changed_properties` are used
by the code, so the map is modelled as its key list (in iteration
order). -/
structure Batch where
  argsOk : Bool
  changed_properties : List String
  invalidated_properties : List String
deriving DecidableEq, Repr

/-- Model of `Changes` from `src/device.rs`. The `PropertiesChangedStream` field is
modelled by the `path` it was opened for (the proxy is built with
`.path(self.proxy.path())`), the list of its remaining notification
`batches`, and whether the stream `ended` after those. -/
structure Changes where
  path : String
  interest : List PropertyName
  change_buffer : List PropertyName
  batches : List Batch
  ended : Bool
deriving DecidableEq, Repr

/-- The filtering loop body in `Changes::wait`: keep the names that parse
via `PropertyName::from_str` and are in the interest set, in order. -/
def interestFilter (interest : List PropertyName) (names : List String) :
    List PropertyName :=
  (names.filterMap PropertyName.fromStr).filter (fun n => interest.contains n)

/-- The names one batch pushes onto `change_buffer` in `Changes::wait`:
filtered changed-property keys followed by filtered invalidated
properties. -/
def pushBatch (interest : List PropertyName) (b : Batch) : List PropertyName :=
  interestFilter interest b.changed_properties ++
    interestFilter interest b.invalidated_properties

/-- Result of one `Changes::wait` call, with the multiplexer state after
the call. `pending` marks a call that never resolves (the underlying
stream has no further message and has not ended). -/
inductive WaitOutcome
  | ok (prop : PropertyName) (c : Changes)
  | err (c : Changes)
  | pending (c : Changes)
deriving DecidableEq, Repr

/-- The multiplexer state carried by a `WaitOutcome`. -/
def WaitOutcome.state : WaitOutcome → Changes
  | .ok _ c => c
  | .err c => c
  | .pending c => c

/-- The `loop` in `Changes::wait`, entered with an empty `change_buffer`:
consume batches until one contributes an interesting name.  A batch whose
`args()` call fails makes the call return an error with the batch
consumed; an exhausted, ended stream is the terminal
"device change stream ended" error. -/
def waitFrom (path : String) (interest : List PropertyName) (ended : Bool) :
    List Batch → WaitOutcome
  | [] =>
    if ended then .err ⟨path, interest, [], [], ended⟩
    else .pending ⟨path, interest, [], [], ended⟩
  | b :: rest =>
    if b.argsOk then
      match (pushBatch interest b).getLast? with
      | some prop =>
        .ok prop ⟨path, interest, (pushBatch interest b).dropLast, rest, ended⟩
      | none => waitFrom path interest ended rest
    else .err ⟨path, interest, [], rest, ended⟩

/-- Model of `Changes::wait` from `src/device.rs`: pop the pending buffer if
non-empty (`Vec::pop`, i.e. from the back), otherwise drain the
underlying notification stream. -/
def Changes.wait (c : Changes) : WaitOutcome :=
  match c.change_buffer.getLast? with
  | some prop => .ok prop {c with change_buffer := c.change_buffer.dropLast}
  | none => waitFrom c.path c.interest c.ended c.batches

/-- Outcomes of `n` successive `Changes::wait` calls, each starting from
the state left by the previous call. -/
def Changes.waitN (c : Changes) : Nat → List WaitOutcome
  | 0 => []
  | n + 1 => c.wait :: (WaitOutcome.state c.wait).waitN n

/-- The multiplexer state after `n` successive `Changes::wait` calls. -/
def Changes.stateAfter (c : Changes) : Nat → Changes
  | 0 => c
  | n + 1 => (WaitOutcome.state c.wait).stateAfter n

/-- Model of `str::starts_with` on object paths, as a character-list
prefix test (on valid UTF-8 strings the byte-prefix test used by
`starts_with` agrees with the character-prefix test). -/
def strStartsWith (s pre : String) : Bool :=
  pre.data.isPrefixOf s.data

/-- Model of `Device` from `src/device.rs`, reduced to what the discovery engine
observes of it: the object path of its proxy (`Device::path`).  Cloning a
`Device` shares the proxy, so clones are modelled as equal values. -/
structure Device where
  path : String
deriving DecidableEq, Repr

/-- One message of the `receive_all_signals` stream as consumed by
`DeviceSet::next_modification`. For an `InterfacesAdded` signal the model
carries the environment's answers for the two fallible calls made while
handling it: `newFails` is whether `Device::new` fails, and `changeStream`
is `none` when `Device::property_change_stream` fails, otherwise the
content of the freshly opened subscription. `malformed` covers messages
that are neither signal, and signals whose `args()` call fails. -/
inductive BusEvent
  | interfacesAdded (object_path : String) (hasDevice1 : Bool)
      (newFails : Bool) (changeStream : Option (List Batch × Bool))
  | interfacesRemoved (object_path : String) (hasDevice1 : Bool)
  | malformed
deriving DecidableEq, Repr

/-- The `added_removed_stream` (`SignalStream`): its remaining messages,
and whether the subscription ends after them. -/
structure MsgStream where
  msgs : List BusEvent
  ended : Bool
deriving DecidableEq, Repr

/-- Model of `DeviceSet` from `src/adapter.rs` (minus the bus session handle,
which the tracked logic only threads through). -/
structure DeviceSet where
  adapter_path : String
  added_removed_stream : MsgStream
  change_streams : List Changes
  devices : List Device
deriving DecidableEq, Repr

/-- Model of `Modification` from `src/adapter.rs`. -/
inductive Modification
  | Add (device : Device) (change : Changes)
  | Remove (i : Nat)
  | Change (i : Nat) (prop : PropertyName)
deriving DecidableEq, Repr

/-- The interest set both `Adapter::device_set` and
`DeviceSet::next_modification` subscribe with. -/
def trackedProps : List PropertyName := [.Alias, .ServiceUuids]

/-- The body of the `filter_map` closure in
`DeviceSet::next_modification`: what one signal-stream message is turned
into.  An added path under the adapter with the device interface yields
`Modification::Add` with a fresh device handle and subscription (both
bound to `object_path`), unless `Device::new` or
`property_change_stream` fails, in which case the event is dropped with a
logged warning.  A removed path is looked up by linear scan
(`Iterator::position`); an unknown path is dropped silently. -/
def DeviceSet.filterEvent (s : DeviceSet) : BusEvent → Option Modification
  | .interfacesAdded object_path hasDevice1 newFails changeStream =>
    if strStartsWith object_path s.adapter_path && hasDevice1 then
      if newFails then none
      else
        match changeStream with
        | none => none
        | some (batches, ended) =>
          some (.Add ⟨object_path⟩
            ⟨object_path, trackedProps, [], batches, ended⟩)
    else none
  | .interfacesRemoved object_path hasDevice1 =>
    if strStartsWith object_path s.adapter_path && hasDevice1 then
      match s.devices.findIdx? (fun dev => dev.path == object_path) with
      | some i => some (.Remove i)
      | none => none
    else none
  | .malformed => none

/-- The state after the signal stream head has been consumed, leaving
`rest`. -/
def DeviceSet.consumeMsg (s : DeviceSet) (rest : List BusEvent) : DeviceSet :=
  {s with added_removed_stream := ⟨rest, s.added_removed_stream.ended⟩}

/-- Result of one `DeviceSet::next_modification` call together with the
set state when the call returns (`ended` is the call returning `None`). -/
inductive NextModOutcome
  | yield (m : Modification) (s : DeviceSet)
  | ended (s : DeviceSet)
deriving DecidableEq, Repr

/-- The set state carried by a `NextModOutcome`. -/
def NextModOutcome.state : NextModOutcome → DeviceSet
  | .yield _ s => s
  | .ended s => s

/-- One `DeviceSet::next_modification` call.  The call awaits
`select(filtered_signal_stream, per_device_waits)` and returns its first
item, so which ready source is consumed is scheduler nondeterminism;
the relation covers every cooperative schedule:

* `busSkip`: the filter consumes a message that maps to no modification
  and the merged stream is polled on;
* `busYield`: the filter consumes a message that maps to a modification,
  which the call returns;
* `busDropAdd`: the `filter_map` closure for a matching `InterfacesAdded`
  message suspends awaiting `Device::new` /
  `property_change_stream`, another source wins the race, and the
  in-flight closure (and with it the already-consumed message) is dropped
  when the call returns;
* `devYield`: device `i`'s `wait` future resolves with a property name,
  which the call returns as `Modification::Change`;
* `devErrSkip`: device `i`'s `wait` future resolves with an error, which
  `filter_map(|res| ready(res.ok()))` discards, completing that future;
* `allEnded`: the signal subscription has ended with no message left and
  every per-device `wait` future completes with an error (the
  `FuturesUnordered` stream ends once all its futures complete), so the
  merged stream ends and the call returns `None`.

A `wait` future cancelled while suspended has consumed only batches that
contributed no interesting name and no error, which no later `wait`
outcome depends on, so cancellation is modelled as the future not having
run. -/
inductive NextMod : DeviceSet → NextModOutcome → Prop
  | busSkip {s : DeviceSet} {e : BusEvent} {rest : List BusEvent}
      {o : NextModOutcome} :
      s.added_removed_stream.msgs = e :: rest →
      s.filterEvent e = none →
      NextMod (s.consumeMsg rest) o →
      NextMod s o
  | busYield {s : DeviceSet} {e : BusEvent} {rest : List BusEvent}
      {m : Modification} :
      s.added_removed_stream.msgs = e :: rest →
      s.filterEvent e = some m →
      NextMod s (.yield m (s.consumeMsg rest))
  | busDropAdd {s : DeviceSet} {rest : List BusEvent} {o : NextModOutcome}
      {object_path : String} {hasDevice1 newFails : Bool}
      {changeStream : Option (List Batch × Bool)} :
      s.added_removed_stream.msgs =
        .interfacesAdded object_path hasDevice1 newFails changeStream :: rest →
      (strStartsWith object_path s.adapter_path && hasDevice1) = true →
      NextMod (s.consumeMsg rest) o →
      NextMod s o
  | devYield {s : DeviceSet} {i : Nat} {c c' : Changes} {prop : PropertyName} :
      s.change_streams[i]? = some c →
      c.wait = .ok prop c' →
      NextMod s (.yield (.Change i prop)
        {s with change_streams := s.change_streams.set i c'})
  | devErrSkip {s : DeviceSet} {i : Nat} {c c' : Changes} {o : NextModOutcome} :
      s.change_streams[i]? = some c →
      c.wait = .err c' →
      NextMod {s with change_streams := s.change_streams.set i c'} o →
      NextMod s o
  | allEnded {s : DeviceSet} :
      s.added_removed_stream.msgs = [] →
      s.added_removed_stream.ended = true →
      (∀ c ∈ s.change_streams, c.wait = .err c) →
      NextMod s (.ended s)

/-- Model of `Vec::swap_remove`: remove index `i`, moving the last element into
its place. -/
def swapRemove (l : List α) (i : Nat) : List α :=
  match l.getLast? with
  | none => l
  | some last => (l.set i last).dropLast

/-- Model of `DeviceSetChange` from `src/adapter.rs`, paired with the set state
when `DeviceSet::change` returns; `error` is the
"event stream ended (adapter disconnected?)" failure. -/
inductive ChangeOutcome
  | added (device : Device) (s : DeviceSet)
  | removed (device : Device) (s : DeviceSet)
  | changed (device : Device) (prop : PropertyName) (s : DeviceSet)
  | error (s : DeviceSet)
deriving DecidableEq, Repr

/-- The set state carried by a `ChangeOutcome`. -/
def ChangeOutcome.state : ChangeOutcome → DeviceSet
  | .added _ s => s
  | .removed _ s => s
  | .changed _ _ s => s
  | .error s => s

/-- Whether a `ChangeOutcome` is the terminal error. -/
def ChangeOutcome.isError : ChangeOutcome → Bool
  | .error _ => true
  | _ => false

/-- One `DeviceSet::change` call: apply the modification returned by
`next_modification` to the parallel collections and report it.  `Add`
pushes onto both vectors and returns a reference to the pushed device;
`Remove i` swap-removes index `i` from both (the index hypotheses mark
the `swap_remove` and `devices[i]` accesses that would otherwise panic);
`Change i` reports `devices[i]` without mutating; `None` is the terminal
error. -/
inductive Change : DeviceSet → ChangeOutcome → Prop
  | add {s s' : DeviceSet} {device : Device} {change : Changes} :
      NextMod s (.yield (.Add device change) s') →
      Change s (.added device
        {s' with devices := s'.devices ++ [device],
                 change_streams := s'.change_streams ++ [change]})
  | remove {s s' : DeviceSet} {i : Nat} (h : i < s'.devices.length)
      (h' : i < s'.change_streams.length) :
      NextMod s (.yield (.Remove i) s') →
      Change s (.removed (s'.devices.get ⟨i, h⟩)
        {s' with devices := swapRemove s'.devices i,
                 change_streams := swapRemove s'.change_streams i})
  | changed {s s' : DeviceSet} {i : Nat} {prop : PropertyName}
      (h : i < s'.devices.length) :
      NextMod s (.yield (.Change i prop) s') →
      Change s (.changed (s'.devices.get ⟨i, h⟩) prop s')
  | error {s s' : DeviceSet} :
      NextMod s (.ended s') →
      Change s (.error s')

/-- Model of `DeviceStream` from `src/adapter.rs`: the replay buffer plus the
owned set. -/
structure DeviceStream where
  to_yield : List Device
  set : DeviceSet
deriving DecidableEq, Repr

/-- Model of `DeviceSet::into_device_stream`: the replay buffer is a clone of the
current `devices` vector. -/
def DeviceSet.into_device_stream (s : DeviceSet) : DeviceStream :=
  ⟨s.devices, s⟩

/-- One observable step of a `DeviceStream::next` driving loop:
either a device popped from the replay buffer, or one `DeviceSet::change`
outcome consumed by the `loop` in `next`.  A `next()` call is one
`replayed` step, or a run of `live` steps ending at the first
non-`Removed` outcome. -/
inductive Ev
  | replayed (device : Device)
  | live (co : ChangeOutcome)
deriving DecidableEq, Repr

/-- Whether this step makes `DeviceStream::next` return a device with
path `p`: replayed devices and the devices carried by `Added` / `Changed`
outcomes are returned to the caller; `Removed` outcomes are discarded by
the loop and the error outcome returns no device. -/
def Ev.yieldsPath (p : String) : Ev → Bool
  | .replayed d => d.path == p
  | .live (.added d _) => d.path == p
  | .live (.changed d _ _) => d.path == p
  | _ => false

/-- Whether this step consumed an `Added` modification for path `p`. -/
def Ev.addsPath (p : String) : Ev → Bool
  | .live (.added d _) => d.path == p
  | _ => false

/-- Whether this step consumed a `Removed` modification for path `p`. -/
def Ev.removesPath (p : String) : Ev → Bool
  | .live (.removed d _) => d.path == p
  | _ => false

/-- A trace of successive `DeviceStream::next` steps: `replay` pops the
back of the replay buffer (`Vec::pop`) without touching the set; `live`
calls `DeviceSet::change` once the buffer is empty. -/
inductive Run : DeviceStream → List Ev → DeviceStream → Prop
  | nil {st : DeviceStream} : Run st [] st
  | replay {st : DeviceStream} {d : Device} {evs : List Ev}
      {st' : DeviceStream} :
      st.to_yield.getLast? = some d →
      Run ⟨st.to_yield.dropLast, st.set⟩ evs st' →
      Run st (.replayed d :: evs) st'
  | live {st : DeviceStream} {co : ChangeOutcome} {evs : List Ev}
      {st' : DeviceStream} :
      st.to_yield = [] →
      Change st.set co →
      Run ⟨[], co.state⟩ evs st' →
      Run st (.live co :: evs) st'

/-- One entry of the `get_managed_objects` snapshot as consumed by
`Adapter::device_set`, with the environment's answers for the two
fallible calls made per device entry (`Device::new` and
`property_change_stream`), as in `BusEvent.interfacesAdded`. -/
structure SnapshotEntry where
  path : String
  hasDevice1 : Bool
  newFails : Bool
  changeStream : Option (List Batch × Bool)
deriving DecidableEq, Repr

/-- The body of the snapshot loop in `Adapter::device_set`: entries under
the adapter path exposing the device interface become a device plus its
change subscription; entries whose `Device::new` or
`property_change_stream` fails are skipped with a logged warning. -/
def buildEntry (adapter_path : String) (e : SnapshotEntry) :
    Option (Device × Changes) :=
  if strStartsWith e.path adapter_path && e.hasDevice1 then
    if e.newFails then none
    else
      match e.changeStream with
      | none => none
      | some (batches, ended) =>
        some (⟨e.path⟩, ⟨e.path, trackedProps, [], batches, ended⟩)
  else none

/-- Model of `Adapter::device_set`: snapshot the object tree and build the
parallel `devices` / `change_streams` vectors in lockstep. -/
def device_set (adapter_path : String) (signals : MsgStream)
    (objects : List SnapshotEntry) : DeviceSet :=
  let pairs := objects.filterMap (buildEntry adapter_path)
  { adapter_path := adapter_path,
    added_removed_stream := signals,
    change_streams := pairs.map Prod.snd,
    devices := pairs.map Prod.fst }

/-- The parallel-collections invariant of `DeviceSet` (spec §3):
`devices` and `change_streams` are index-aligned, each subscription being
the one opened for the device at the same index (a `Changes` is tied to
its device by the object path its `PropertiesChangedStream` proxy was
built with). -/
def DeviceSet.parallelInv (s : DeviceSet) : Prop :=
  s.devices.map Device.path = s.change_streams.map Changes.path

instance (s : DeviceSet) : Decidable s.parallelInv := by
  unfold DeviceSet.parallelInv; infer_instance

/-- The no-duplicate-paths invariant of `DeviceSet` (spec §3). -/
def DeviceSet.pathsNodup (s : DeviceSet) : Prop :=
  (s.devices.map Device.path).Nodup

instance (s : DeviceSet) : Decidable s.pathsNodup := by
  unfold DeviceSet.pathsNodup; infer_instance

/-- All event sources of a `DeviceSet` are permanently exhausted: the
add/remove signal subscription has ended with no message left, and every
per-device `wait` errs without further state change (its stream has ended
with nothing buffered). -/
def DeviceSet.exhausted (s : DeviceSet) : Prop :=
  s.added_removed_stream.msgs = [] ∧
    s.added_removed_stream.ended = true ∧
    ∀ c ∈ s.change_streams, c.wait = .err c

instance (s : DeviceSet) : Decidable s.exhausted := by
  unfold DeviceSet.exhausted; infer_instance

/-- The device a `replayed` step yielded, if this step was a replay. -/
def Ev.replayedDevice? : Ev → Option Device
  | .replayed d => some d
  | _ => none

/-- No step of the trace consumed an `Added` modification for path `p`. -/
def addsNone (p : String) (evs : List Ev) : Bool :=
  evs.all (fun e => !(e.addsPath p))

/-! ## Concrete states used by witnesses and counterexamples -/

/-- A device under the example adapter path `/a`. -/
def exDevB : Device := ⟨"/a/b"⟩

/-- A notification batch reporting a change of the `Alias` property. -/
def exBatchAlias : Batch := ⟨true, ["Alias"], []⟩

/-- A fresh subscription for `/a/b` with no pending notification. -/
def exChg1 : Changes := ⟨"/a/b", trackedProps, [], [], false⟩

/-- A subscription for `/a/b` with one pending `Alias` notification. -/
def exChg2 : Changes := ⟨"/a/b", trackedProps, [], [exBatchAlias], false⟩

def ex1e1 : BusEvent := .interfacesAdded "/a/b" true false (some ([], false))

def ex1e2 : BusEvent :=
  .interfacesAdded "/a/b" true false (some ([exBatchAlias], false))

def ex1e3 : BusEvent := .interfacesRemoved "/a/b" true

/-- Initial set: no devices, three pending signal messages
(add `/a/b`, add `/a/b` again, remove `/a/b`). -/
def ex1s0 : DeviceSet := ⟨"/a", ⟨[ex1e1, ex1e2, ex1e3], false⟩, [], []⟩

def ex1s1 : DeviceSet := ⟨"/a", ⟨[ex1e2, ex1e3], false⟩, [exChg1], [exDevB]⟩

def ex1s2 : DeviceSet :=
  ⟨"/a", ⟨[ex1e3], false⟩, [exChg1, exChg2], [exDevB, exDevB]⟩

def ex1s3 : DeviceSet := ⟨"/a", ⟨[], false⟩, [exChg2], [exDevB]⟩

def ex1s4 : DeviceSet := ⟨"/a", ⟨[], false⟩, [exChg1], [exDevB]⟩

/-- The trace refuting C1: add `/a/b` twice, consume the remove (which
only drops one of the two entries), then yield the surviving entry on a
property change. -/
def ex1evs : List Ev :=
  [.live (.added exDevB ex1s1), .live (.added exDevB ex1s2),
   .live (.removed exDevB ex1s3), .live (.changed exDevB .Alias ex1s4)]

def ex2dA : Device := ⟨"/a/a"⟩

/-- A set holding two devices, used for the replay witnesses. -/
def ex2set : DeviceSet := ⟨"/a", ⟨[], false⟩, [], [ex2dA, exDevB]⟩

/-- An ended subscription whose `wait` errs without state change. -/
def exChgEnded : Changes := ⟨"/a/b", trackedProps, [], [], true⟩

/-- A set whose signal subscription has ended but whose single device
still has a buffered property change. -/
def ex3set : DeviceSet :=
  ⟨"/a", ⟨[], true⟩, [⟨"/a/b", trackedProps, [.Alias], [], true⟩], [exDevB]⟩

def ex3post : DeviceSet := ⟨"/a", ⟨[], true⟩, [exChgEnded], [exDevB]⟩

/-- A set with every event source permanently exhausted. -/
def ex3eset : DeviceSet := ⟨"/a", ⟨[], true⟩, [exChgEnded], [exDevB]⟩

/-- A batch contributing three interesting names (`Alias`, `ServiceUuids`
from the changed list, `Alias` again from the invalidated list); `RSSI`
parses but is not in the interest set. -/
def ex4batch : Batch := ⟨true, ["Alias", "UUIDs", "RSSI"], ["Alias"]⟩

/-- A set about to process a remove event for one tracked device. -/
def ex6wset : DeviceSet := ⟨"/a", ⟨[ex1e3], false⟩, [exChg1], [exDevB]⟩

def ex6wpost : DeviceSet := ⟨"/a", ⟨[], false⟩, [], []⟩

/-- A set about to process a remove event for an unknown path. -/
def ex7set : DeviceSet :=
  ⟨"/a", ⟨[.interfacesRemoved "/a/c" true], false⟩, [exChg1], [exDevB]⟩

/-- A set about to process an add event whose device construction
fails. -/
def ex8set : DeviceSet :=
  ⟨"/a", ⟨[.interfacesAdded "/a/c" true true none], false⟩, [exChg1], [exDevB]⟩

/-- A subscription for `/a/a` with one pending `Alias` notification. -/
def exChgA : Changes := ⟨"/a/a", trackedProps, [], [exBatchAlias], false⟩

/-- The subscription for `/a/a` after its notification was consumed. -/
def exChgADone : Changes := ⟨"/a/a", trackedProps, [], [], false⟩

/-- Two tracked devices with a pending remove event for `/a/b`. -/
def exW0 : DeviceSet :=
  ⟨"/a", ⟨[ex1e3], false⟩, [exChgA, exChg1], [ex2dA, exDevB]⟩

def exW1 : DeviceSet := ⟨"/a", ⟨[], false⟩, [exChgA], [ex2dA]⟩

def exW2 : DeviceSet := ⟨"/a", ⟨[], false⟩, [exChgADone], [ex2dA]⟩

/-- A trace consuming the remove for `/a/b`, then a change for `/a/a`. -/
def exWevs : List Ev :=
  [.live (.removed exDevB exW1), .live (.changed ex2dA .Alias exW2)]

/-! ## List lemmas -/

theorem set_of_getElem? {α : Type _} :
    ∀ (l : List α) (i : Nat) (a : α), l[i]? = some a → l.set i a = l
  | [], i, a, h => by simp at h
  | x :: xs, 0, a, h => by
    simp only [List.getElem?_cons_zero, Option.some.injEq] at h
    simp [h]
  | x :: xs, i + 1, a, h => by
    simp only [List.getElem?_cons_succ] at h
    simp [set_of_getElem? xs i a h]

theorem swapRemove_nil {α : Type _} (i : Nat) : swapRemove ([] : List α) i = [] := rfl

theorem swapRemove_eq_of_ne_nil {α : Type _} {l : List α} (h : l ≠ []) (i : Nat) :
    swapRemove l i = (l.set i (l.getLast h)).dropLast := by
  unfold swapRemove
  rw [List.getLast?_eq_getLast l h]

theorem swapRemove_length {α : Type _} {l : List α} {i : Nat} (h : i < l.length) :
    (swapRemove l i).length = l.length - 1 := by
  have hne : l ≠ [] := by
    intro hl; rw [hl] at h; simp at h
  rw [swapRemove_eq_of_ne_nil hne, List.length_dropLast, List.length_set]

theorem swapRemove_getElem? {α : Type _} {l : List α} {i k : Nat}
    (hk : k < l.length - 1) :
    (swapRemove l i)[k]? = if k = i then l[l.length - 1]? else l[k]? := by
  have hkl : k < l.length := by omega
  have hne : l ≠ [] := by
    intro hl; rw [hl] at hkl; simp at hkl
  have hlast : l.length - 1 < l.length := by omega
  rw [swapRemove_eq_of_ne_nil hne i]
  have hkd : k < (l.set i (l.getLast hne)).dropLast.length := by
    rw [List.length_dropLast, List.length_set]; exact hk
  rw [List.getElem?_eq_getElem hkd, List.getElem_dropLast, List.getElem_set]
  rcases eq_or_ne k i with hik | hik
  · subst hik
    rw [if_pos rfl, if_pos rfl]
    rw [List.getLast_eq_getElem l hne, List.getElem?_eq_getElem hlast]
  · rw [if_neg (fun hh => hik hh.symm), if_neg hik, List.getElem?_eq_getElem hkl]

theorem mem_of_mem_swapRemove {α : Type _} {l : List α} {i : Nat} {x : α}
    (hx : x ∈ swapRemove l i) : x ∈ l := by
  unfold swapRemove at hx
  cases hl : l.getLast? with
  | none => rw [hl] at hx; exact hx
  | some last =>
    rw [hl] at hx
    rcases List.mem_or_eq_of_mem_set (List.mem_of_mem_dropLast hx) with h | h
    · exact h
    · have hne : l ≠ [] := by
        intro hnil; rw [hnil] at hl; simp at hl
      rw [List.getLast?_eq_getLast l hne] at hl
      cases hl
      rw [h]
      exact List.getLast_mem hne

theorem map_swapRemove {α β : Type _} (f : α → β) (l : List α) (i : Nat) :
    (swapRemove l i).map f = swapRemove (l.map f) i := by
  unfold swapRemove
  cases hl : l.getLast? with
  | none =>
    rw [List.getLast?_eq_none_iff] at hl
    subst hl; rfl
  | some last =>
    rw [List.getLast?_map, hl]
    simp only [Option.map_some']
    rw [List.map_dropLast, List.map_set]

theorem getElem_not_mem_swapRemove {α : Type _} {l : List α} {i : Nat}
    (hi : i < l.length) (hnd : l.Nodup) : l[i] ∉ swapRemove l i := by
  intro hx
  rw [List.mem_iff_getElem] at hx
  obtain ⟨k, hk, hkx⟩ := hx
  have hk1 : k < l.length - 1 := by
    have := swapRemove_length hi
    omega
  have hq : (swapRemove l i)[k]? = some l[i] := by
    rw [List.getElem?_eq_getElem hk, hkx]
  rw [swapRemove_getElem? hk1] at hq
  have hinj := List.nodup_iff_getElem?_ne_getElem?.1 hnd
  rcases eq_or_ne k i with hik | hik
  · rw [if_pos hik] at hq
    have hlast : l.length - 1 < l.length := by omega
    rw [List.getElem?_eq_getElem hlast, Option.some.injEq] at hq
    have hne : i ≠ l.length - 1 := by omega
    have := hinj i (l.length - 1) (by omega) (by omega)
    rw [List.getElem?_eq_getElem hi, List.getElem?_eq_getElem hlast, hq] at this
    exact this rfl
  · rw [if_neg hik] at hq
    have hkl : k < l.length := by omega
    rw [List.getElem?_eq_getElem hkl, Option.some.injEq] at hq
    rcases Nat.lt_or_ge k i with hki | hki
    · have := hinj k i hki hi
      rw [List.getElem?_eq_getElem hkl, List.getElem?_eq_getElem hi, hq] at this
      exact this rfl
    · have hik2 : i < k := by omega
      have := hinj i k hik2 hkl
      rw [List.getElem?_eq_getElem hkl, List.getElem?_eq_getElem hi, hq] at this
      exact this rfl

theorem nodup_swapRemove {α : Type _} {l : List α} {i : Nat} (hnd : l.Nodup) :
    (swapRemove l i).Nodup := by
  rw [List.nodup_iff_getElem?_ne_getElem?]
  intro a b hab hb heq
  rcases Nat.lt_or_ge i l.length with hi | hi
  · have hlen := swapRemove_length (l := l) hi
    have hb1 : b < l.length - 1 := by omega
    have ha1 : a < l.length - 1 := by omega
    rw [swapRemove_getElem? ha1, swapRemove_getElem? hb1] at heq
    have hinj := List.nodup_iff_getElem?_ne_getElem?.1 hnd
    rcases eq_or_ne a i with hai | hai <;> rcases eq_or_ne b i with hbi | hbi
    · omega
    · rw [if_pos hai, if_neg hbi] at heq
      rcases Nat.lt_or_ge b (l.length - 1) with hblt | hblt
      · exact hinj b (l.length - 1) hblt (by omega) heq.symm
      · omega
    · rw [if_neg hai, if_pos hbi] at heq
      exact hinj a (l.length - 1) (by omega) (by omega) heq
    · rw [if_neg hai, if_neg hbi] at heq
      exact hinj a b hab (by omega) heq
  · have hset : swapRemove l i = l.dropLast := by
      cases hl : l.getLast? with
      | none =>
        rw [List.getLast?_eq_none_iff] at hl
        subst hl; rfl
      | some last =>
        have hne : l ≠ [] := by
          intro hnil; subst hnil; simp at hl
        rw [swapRemove_eq_of_ne_nil hne i, List.set_eq_of_length_le hi]
    rw [hset] at heq hb
    have hsub := List.Nodup.sublist (List.dropLast_sublist l) hnd
    exact List.nodup_iff_getElem?_ne_getElem?.1 hsub a b hab hb heq

/-! ## Multiplexer state lemmas -/

theorem waitFrom_path {path : String} {interest : List PropertyName} {ended : Bool} :
    ∀ bs : List Batch, (WaitOutcome.state (waitFrom path interest ended bs)).path = path
  | [] => by
    unfold waitFrom
    split <;> rfl
  | b :: rest => by
    unfold waitFrom
    split
    · cases (pushBatch interest b).getLast? with
      | some prop => rfl
      | none => exact waitFrom_path rest
    · rfl

theorem wait_path (c : Changes) : (WaitOutcome.state c.wait).path = c.path := by
  unfold Changes.wait
  cases c.change_buffer.getLast? with
  | some prop => rfl
  | none => exact waitFrom_path c.batches

theorem wait_ok_path {c c' : Changes} {prop : PropertyName}
    (h : c.wait = .ok prop c') : c'.path = c.path := by
  have := wait_path c
  rw [h] at this
  exact this

theorem wait_err_path {c c' : Changes} (h : c.wait = .err c') : c'.path = c.path := by
  have := wait_path c
  rw [h] at this
  exact this

/-! ## `next_modification` invariants -/

theorem nextMod_devices {s : DeviceSet} {o : NextModOutcome} (h : NextMod s o) :
    o.state.devices = s.devices := by
  induction h with
  | busSkip _ _ _ ih => exact ih
  | busYield _ _ => rfl
  | busDropAdd _ _ _ ih => exact ih
  | devYield _ _ => rfl
  | devErrSkip _ _ _ ih => exact ih
  | allEnded _ _ _ => rfl

theorem nextMod_adapter_path {s : DeviceSet} {o : NextModOutcome} (h : NextMod s o) :
    o.state.adapter_path = s.adapter_path := by
  induction h with
  | busSkip _ _ _ ih => exact ih
  | busYield _ _ => rfl
  | busDropAdd _ _ _ ih => exact ih
  | devYield _ _ => rfl
  | devErrSkip _ _ _ ih => exact ih
  | allEnded _ _ _ => rfl

theorem streams_set_map_path {l : List Changes} {i : Nat} {c c' : Changes}
    (hl : l[i]? = some c) (hp : c'.path = c.path) :
    (l.set i c').map Changes.path = l.map Changes.path := by
  rw [List.map_set]
  apply set_of_getElem?
  rw [List.getElem?_map, hl, Option.map_some', hp]

theorem nextMod_streams_path {s : DeviceSet} {o : NextModOutcome} (h : NextMod s o) :
    o.state.change_streams.map Changes.path = s.change_streams.map Changes.path := by
  induction h with
  | busSkip _ _ _ ih => exact ih
  | busYield _ _ => rfl
  | busDropAdd _ _ _ ih => exact ih
  | devYield h1 h2 => exact streams_set_map_path h1 (wait_ok_path h2)
  | devErrSkip h1 h2 _ ih =>
    rw [ih, streams_set_map_path h1 (wait_err_path h2)]
  | allEnded _ _ _ => rfl

theorem filterEvent_add_path {s : DeviceSet} {e : BusEvent} {d : Device} {c : Changes}
    (h : s.filterEvent e = some (.Add d c)) :
    d.path = c.path ∧ c.interest = trackedProps ∧ c.change_buffer = [] := by
  cases e with
  | interfacesAdded object_path hasDevice1 newFails changeStream =>
    cases newFails with
    | true => simp [DeviceSet.filterEvent] at h
    | false =>
      cases changeStream with
      | none => simp [DeviceSet.filterEvent] at h
      | some bs =>
        obtain ⟨batches, ended⟩ := bs
        simp only [DeviceSet.filterEvent, Bool.false_eq_true, if_false] at h
        split at h
        · simp only [Option.some.injEq, Modification.Add.injEq] at h
          obtain ⟨hd, hc⟩ := h
          subst hd; subst hc
          exact ⟨rfl, rfl, rfl⟩
        · exact absurd h (by simp)
  | interfacesRemoved object_path hasDevice1 =>
    simp only [DeviceSet.filterEvent] at h
    split at h
    · split at h <;> simp_all
    · exact absurd h (by simp)
  | malformed => exact absurd h (by simp [DeviceSet.filterEvent])

theorem nextMod_yield_add {s : DeviceSet} {o : NextModOutcome} (h : NextMod s o) :
    ∀ {d : Device} {c : Changes} {s' : DeviceSet},
      o = .yield (.Add d c) s' → d.path = c.path := by
  induction h with
  | busSkip _ _ _ ih => exact ih
  | busYield h1 h2 =>
    intro d c s' ho
    injection ho with hm _
    subst hm
    exact (filterEvent_add_path h2).1
  | busDropAdd _ _ _ ih => exact ih
  | devYield _ _ =>
    intro d c s' ho
    injection ho with hm _
    exact absurd hm (by simp)
  | devErrSkip _ _ _ ih => exact ih
  | allEnded _ _ _ =>
    intro d c s' ho
    exact absurd ho (by simp)

theorem nextMod_exhausted {s : DeviceSet} {o : NextModOutcome} (h : NextMod s o) :
    s.exhausted → o = .ended s := by
  induction h with
  | busSkip h1 _ _ _ =>
    intro hex
    rw [hex.1] at h1
    exact absurd h1 (by simp)
  | busYield h1 _ =>
    intro hex
    rw [hex.1] at h1
    exact absurd h1 (by simp)
  | busDropAdd h1 _ _ _ =>
    intro hex
    rw [hex.1] at h1
    exact absurd h1 (by simp)
  | devYield h1 h2 =>
    intro hex
    have hc := hex.2.2 _ (List.getElem?_mem h1)
    rw [hc] at h2
    exact absurd h2 (by simp)
  | devErrSkip h1 h2 _ ih =>
    intro hex
    have hc := hex.2.2 _ (List.getElem?_mem h1)
    rw [hc] at h2
    injection h2 with h2
    subst h2
    rw [set_of_getElem? _ _ _ h1] at ih
    exact ih hex
  | allEnded _ _ _ =>
    intro _
    rfl

/-! ## `change` invariants -/

theorem nextMod_yield_devices {s : DeviceSet} {m : Modification} {s' : DeviceSet}
    (h : NextMod s (.yield m s')) : s'.devices = s.devices :=
  nextMod_devices h

theorem nextMod_ended_devices {s s' : DeviceSet}
    (h : NextMod s (.ended s')) : s'.devices = s.devices :=
  nextMod_devices h

theorem nextMod_yield_streams_path {s : DeviceSet} {m : Modification}
    {s' : DeviceSet} (h : NextMod s (.yield m s')) :
    s'.change_streams.map Changes.path = s.change_streams.map Changes.path :=
  nextMod_streams_path h

theorem nextMod_ended_streams_path {s s' : DeviceSet}
    (h : NextMod s (.ended s')) :
    s'.change_streams.map Changes.path = s.change_streams.map Changes.path :=
  nextMod_streams_path h

theorem change_parallelInv {s : DeviceSet} {co : ChangeOutcome}
    (hc : Change s co) (hp : s.parallelInv) : co.state.parallelInv := by
  unfold DeviceSet.parallelInv at *
  cases hc with
  | add hnm =>
    simp only [ChangeOutcome.state]
    rw [List.map_append, List.map_append,
      nextMod_yield_devices hnm, nextMod_yield_streams_path hnm, hp]
    have := nextMod_yield_add hnm rfl
    simp [this]
  | remove h h' hnm =>
    simp only [ChangeOutcome.state]
    rw [map_swapRemove Device.path, map_swapRemove Changes.path,
      nextMod_yield_devices hnm, nextMod_yield_streams_path hnm, hp]
  | changed h hnm =>
    simp only [ChangeOutcome.state]
    rw [nextMod_yield_devices hnm, nextMod_yield_streams_path hnm, hp]
  | error hnm =>
    simp only [ChangeOutcome.state]
    rw [nextMod_ended_devices hnm, nextMod_ended_streams_path hnm, hp]

/-! ## Trace lemmas for `DeviceStream::next` -/

theorem run_append_split {e₁ : List Ev} :
    ∀ {st st' : DeviceStream} {e₂ : List Ev}, Run st (e₁ ++ e₂) st' →
      ∃ mid, Run st e₁ mid ∧ Run mid e₂ st' := by
  induction e₁ with
  | nil =>
    intro st st' e₂ h
    exact ⟨st, Run.nil, h⟩
  | cons ev rest ih =>
    intro st st' e₂ h
    cases h with
    | replay h1 h2 =>
      obtain ⟨mid, hm1, hm2⟩ := ih h2
      exact ⟨mid, Run.replay h1 hm1, hm2⟩
    | live h1 h2 h3 =>
      obtain ⟨mid, hm1, hm2⟩ := ih h3
      exact ⟨mid, Run.live h1 h2 hm1, hm2⟩

theorem run_no_yield_of_absent {st : DeviceStream} {evs : List Ev}
    {st' : DeviceStream} {p : String} (h : Run st evs st') :
    st.to_yield = [] →
    p ∉ st.set.devices.map Device.path →
    (∀ e ∈ evs, e.addsPath p = false) →
    (∀ e ∈ evs, e.yieldsPath p = false) ∧ st'.to_yield = [] ∧
      p ∉ st'.set.devices.map Device.path := by
  induction h with
  | nil =>
    intro h1 h2 _
    exact ⟨by simp, h1, h2⟩
  | replay h1 _ _ =>
    intro hto _ _
    rw [hto] at h1
    simp at h1
  | live h1 hchg _ ih =>
    intro hto habs hnoadd
    cases hchg with
    | @add s' device change hnm =>
      have hadd := hnoadd _ (List.mem_cons_self _ _)
      simp only [Ev.addsPath, beq_eq_false_iff_ne, ne_eq] at hadd
      have habs2 : p ∉
          (ChangeOutcome.state (.added device
            {s' with devices := s'.devices ++ [device],
                     change_streams := s'.change_streams ++ [change]})).devices.map
            Device.path := by
        simp only [ChangeOutcome.state]
        rw [List.map_append, nextMod_yield_devices hnm]
        intro hmem
        rcases List.mem_append.1 hmem with hm | hm
        · exact habs hm
        · simp at hm
          exact hadd hm.symm
      obtain ⟨hy, hys, hab⟩ :=
        ih rfl habs2 (fun e he => hnoadd e (List.mem_cons_of_mem _ he))
      refine ⟨?_, hys, hab⟩
      intro e he
      rcases List.mem_cons.1 he with he | he
      · subst he
        simp only [Ev.yieldsPath, beq_eq_false_iff_ne, ne_eq]
        exact fun hh => hadd hh
      · exact hy e he
    | @remove s' i hlt hlt' hnm =>
      have habs2 : p ∉
          (ChangeOutcome.state (.removed (s'.devices.get ⟨i, hlt⟩)
            {s' with devices := swapRemove s'.devices i,
                     change_streams := swapRemove s'.change_streams i})).devices.map
            Device.path := by
        simp only [ChangeOutcome.state]
        rw [map_swapRemove]
        intro hmem
        have := mem_of_mem_swapRemove hmem
        rw [nextMod_yield_devices hnm] at this
        exact habs this
      obtain ⟨hy, hys, hab⟩ :=
        ih rfl habs2 (fun e he => hnoadd e (List.mem_cons_of_mem _ he))
      refine ⟨?_, hys, hab⟩
      intro e he
      rcases List.mem_cons.1 he with he | he
      · subst he
        simp [Ev.yieldsPath]
      · exact hy e he
    | @changed s' i prop hlt hnm =>
      have habs2 : p ∉
          (ChangeOutcome.state (.changed (s'.devices.get ⟨i, hlt⟩) prop
            s')).devices.map Device.path := by
        simp only [ChangeOutcome.state]
        rw [nextMod_yield_devices hnm]
        exact habs
      obtain ⟨hy, hys, hab⟩ :=
        ih rfl habs2 (fun e he => hnoadd e (List.mem_cons_of_mem _ he))
      refine ⟨?_, hys, hab⟩
      intro e he
      rcases List.mem_cons.1 he with he | he
      · subst he
        simp only [Ev.yieldsPath, beq_eq_false_iff_ne, ne_eq]
        intro hp
        apply habs
        rw [← nextMod_yield_devices hnm, ← hp]
        exact List.mem_map_of_mem Device.path (s'.devices.get_mem _ _)
      · exact hy e he
    | @error s' hnm =>
      have habs2 : p ∉ (ChangeOutcome.state (.error s')).devices.map
          Device.path := by
        simp only [ChangeOutcome.state]
        rw [nextMod_ended_devices hnm]
        exact habs
      obtain ⟨hy, hys, hab⟩ :=
        ih rfl habs2 (fun e he => hnoadd e (List.mem_cons_of_mem _ he))
      refine ⟨?_, hys, hab⟩
      intro e he
      rcases List.mem_cons.1 he with he | he
      · subst he
        simp [Ev.yieldsPath]
      · exact hy e he

theorem run_nodup {st : DeviceStream} {evs : List Ev} {st' : DeviceStream}
    (h : Run st evs st') :
    st.set.pathsNodup →
    (∀ d s₁, Ev.live (.added d s₁) ∈ evs →
      (s₁.devices.map Device.path).count d.path ≤ 1) →
    st'.set.pathsNodup := by
  induction h with
  | nil =>
    intro h1 _
    exact h1
  | replay _ _ ih =>
    intro hnd hf
    exact ih hnd (fun d s₁ hm => hf d s₁ (List.mem_cons_of_mem _ hm))
  | live h1 hchg _ ih =>
    intro hnd hf
    unfold DeviceSet.pathsNodup at *
    cases hchg with
    | @add s' device change hnm =>
      apply ih ?_ (fun d s₁ hm => hf d s₁ (List.mem_cons_of_mem _ hm))
      have hcount := hf device _ (List.mem_cons_self _ _)
      simp only [ChangeOutcome.state] at hcount ⊢
      rw [List.map_append, nextMod_yield_devices hnm] at hcount ⊢
      rw [List.count_append] at hcount
      simp only [List.map_cons, List.map_nil, List.count_singleton, beq_self_eq_true,
        if_true] at hcount
      rw [List.nodup_append]
      refine ⟨hnd, List.nodup_singleton _, List.disjoint_singleton.2 ?_⟩
      rw [← List.count_eq_zero]
      omega
    | @remove s' i hlt hlt' hnm =>
      apply ih ?_ (fun d s₁ hm => hf d s₁ (List.mem_cons_of_mem _ hm))
      simp only [ChangeOutcome.state]
      rw [map_swapRemove]
      apply nodup_swapRemove
      rw [nextMod_yield_devices hnm]
      exact hnd
    | @changed s' i prop hlt hnm =>
      apply ih ?_ (fun d s₁ hm => hf d s₁ (List.mem_cons_of_mem _ hm))
      simp only [ChangeOutcome.state]
      rw [nextMod_yield_devices hnm]
      exact hnd
    | @error s' hnm =>
      apply ih ?_ (fun d s₁ hm => hf d s₁ (List.mem_cons_of_mem _ hm))
      simp only [ChangeOutcome.state]
      rw [nextMod_ended_devices hnm]
      exact hnd

theorem run_replay_phase {evs : List Ev} :
    ∀ {q : List Device} {s : DeviceSet} {st' : DeviceStream},
      Run ⟨q, s⟩ evs st' → evs.length = q.length →
      evs = q.reverse.map Ev.replayed ∧ st' = ⟨[], s⟩ := by
  induction evs with
  | nil =>
    intro q s st' h hlen
    have hq : q = [] := by
      cases q with
      | nil => rfl
      | cons x xs => simp at hlen
    subst hq
    cases h
    exact ⟨rfl, rfl⟩
  | cons ev rest ih =>
    intro q s st' h hlen
    cases h with
    | replay h1 h2 =>
      have hne : q ≠ [] := by
        intro hq
        rw [hq] at h1
        simp at h1
      rw [List.getLast?_eq_getLast q hne, Option.some.injEq] at h1
      have hlen2 : rest.length = q.dropLast.length := by
        rw [List.length_dropLast]
        simp at hlen
        omega
      obtain ⟨hrest, hst⟩ := ih h2 hlen2
      constructor
      · conv_rhs => rw [← List.dropLast_append_getLast hne]
        rw [List.reverse_concat, List.map_cons, ← h1, hrest]
      · exact hst
    | live h1 _ _ =>
      subst h1
      simp at hlen

/-! ## `Adapter::device_set` construction -/

theorem buildEntry_path {adapter_path : String} {e : SnapshotEntry}
    {d : Device} {c : Changes} (h : buildEntry adapter_path e = some (d, c)) :
    d.path = c.path := by
  unfold buildEntry at h
  split at h
  · split at h
    · exact absurd h (by simp)
    · split at h
      · exact absurd h (by simp)
      · simp only [Option.some.injEq, Prod.mk.injEq] at h
        rw [← h.1, ← h.2]
  · exact absurd h (by simp)

theorem device_set_parallelInv (adapter_path : String) (signals : MsgStream)
    (objects : List SnapshotEntry) :
    (device_set adapter_path signals objects).parallelInv := by
  unfold DeviceSet.parallelInv device_set
  simp only [List.map_map]
  apply List.map_congr_left
  intro pr hpr
  rw [List.mem_filterMap] at hpr
  obtain ⟨e, _, he⟩ := hpr
  obtain ⟨d, c⟩ := pr
  simp only [Function.comp_apply]
  exact buildEntry_path he

/-! ## Multiplexer buffer draining -/

theorem waitN_drain (path : String) (interest : List PropertyName) (ended : Bool)
    (rest : List Batch) (buf : List PropertyName) :
    (∀ o ∈ Changes.waitN ⟨path, interest, buf, rest, ended⟩ buf.length,
      ∃ q c₂, o = .ok q c₂ ∧ c₂.batches = rest) ∧
    Changes.stateAfter ⟨path, interest, buf, rest, ended⟩ buf.length =
      ⟨path, interest, [], rest, ended⟩ := by
  induction buf using List.reverseRecOn with
  | nil =>
    constructor
    · intro o ho
      simp [Changes.waitN] at ho
    · rfl
  | append_singleton bs b ih =>
    have hwait : Changes.wait ⟨path, interest, bs ++ [b], rest, ended⟩ =
        .ok b ⟨path, interest, bs, rest, ended⟩ := by
      unfold Changes.wait
      simp [List.getLast?_concat, List.dropLast_concat]
    have hlen : (bs ++ [b]).length = bs.length + 1 := by simp
    constructor
    · intro o ho
      rw [hlen] at ho
      simp only [Changes.waitN, hwait, WaitOutcome.state] at ho
      rcases List.mem_cons.1 ho with ho | ho
      · exact ⟨b, _, ho, rfl⟩
      · exact ih.1 o ho
    · rw [hlen]
      simp only [Changes.stateAfter, hwait, WaitOutcome.state]
      exact ih.2

/-! ## Claim theorems -/

/-- C2: immediately after a `DeviceStream` is constructed from a
`DeviceSet` holding devices `d_1..d_n`, the first `n` calls to `next()`
return exactly those `n` devices, each exactly once (in reverse order of
the `devices` vector), without consuming any live modification (the set
is untouched and every step is a replay); only once the replay buffer is
empty does a further `next()` step call `DeviceSet::change`. -/
theorem replay_completeness {s : DeviceSet} {evs : List Ev} {st' : DeviceStream}
    (hrun : Run s.into_device_stream evs st')
    (hlen : evs.length = s.devices.length) :
    evs = s.devices.reverse.map Ev.replayed ∧
    (evs.filterMap Ev.replayedDevice?).Perm s.devices ∧
    st' = ⟨[], s⟩ ∧
    (∀ (ev : Ev) (evs₂ : List Ev) (st₂ : DeviceStream),
      Run st' (ev :: evs₂) st₂ → ∃ co, ev = .live co ∧ Change s co) := by
  obtain ⟨hevs, hst⟩ := run_replay_phase hrun hlen
  refine ⟨hevs, ?_, hst, ?_⟩
  · rw [hevs, List.filterMap_map]
    have hcomp : (Ev.replayedDevice? ∘ Ev.replayed) = some := rfl
    rw [hcomp, List.filterMap_some]
    exact List.reverse_perm _
  · intro ev evs₂ st₂ h2
    rw [hst] at h2
    cases h2 with
    | replay h1 _ => simp at h1
    | live h1 hchg _ => exact ⟨_, rfl, hchg⟩

/-- Witness for C2 at a concrete two-device set. -/
theorem replay_completeness_witness :
    [Ev.replayed exDevB, Ev.replayed ex2dA] =
      ex2set.devices.reverse.map Ev.replayed ∧
    ([Ev.replayed exDevB, Ev.replayed ex2dA].filterMap
        Ev.replayedDevice?).Perm ex2set.devices ∧
    (⟨[], ex2set⟩ : DeviceStream) = ⟨[], ex2set⟩ := by
  have hrun : Run ex2set.into_device_stream
      [Ev.replayed exDevB, Ev.replayed ex2dA] ⟨[], ex2set⟩ :=
    Run.replay rfl (Run.replay rfl Run.nil)
  have h := replay_completeness hrun (by decide)
  exact ⟨h.1, h.2.1, h.2.2.1⟩

/-- C10: the replay buffer is a copy of the `devices` vector consumed by
`Vec::pop` from the back, so the first `next()` call on a freshly built
stream returns the last device of the construction snapshot. -/
theorem replay_reverse_order {s : DeviceSet} {ds : List Device} {d : Device}
    (hds : s.devices = ds ++ [d]) :
    s.into_device_stream.to_yield = s.devices ∧
    (∀ (ev : Ev) (evs : List Ev) (st' : DeviceStream),
      Run s.into_device_stream (ev :: evs) st' → ev = .replayed d) ∧
    Run s.into_device_stream [.replayed d] ⟨ds, s⟩ := by
  have hto : s.into_device_stream.to_yield = s.devices := rfl
  refine ⟨hto, ?_, ?_⟩
  · intro ev evs st' h
    cases h with
    | replay h1 _ =>
      rw [hto, hds, List.getLast?_concat] at h1
      injection h1 with h1
      rw [h1]
    | live h1 _ _ =>
      rw [hto, hds] at h1
      simp at h1
  · refine Run.replay ?_ ?_
    · rw [hto, hds, List.getLast?_concat]
    · have h2 : s.into_device_stream.to_yield.dropLast = ds := by
        rw [hto, hds, List.dropLast_concat]
      rw [h2]
      exact Run.nil

/-- Witness for C10 at a concrete two-device set. -/
theorem replay_reverse_order_witness :
    ex2set.into_device_stream.to_yield = ex2set.devices ∧
    Run ex2set.into_device_stream [.replayed exDevB] ⟨[ex2dA], ex2set⟩ := by
  have h := replay_reverse_order
    (show ex2set.devices = [ex2dA] ++ [exDevB] from rfl)
  exact ⟨h.1, h.2.2⟩

/-- C4: with an empty pending buffer, one notification batch contributing
`k ≥ 1` interesting names (changed plus invalidated) makes exactly the
next `k` `wait()` calls return a property name; only the first call
consumes the batch (every returned state keeps the remaining stream
`rest` intact), and after those `k` calls the buffer is empty again, so
the `(k+1)`-th call reads the underlying stream. -/
theorem multiplexer_drains_batch {path : String} {interest : List PropertyName}
    {ended : Bool} {b : Batch} {rest : List Batch}
    (hargs : b.argsOk = true) (hk : pushBatch interest b ≠ []) :
    (∀ o ∈ Changes.waitN ⟨path, interest, [], b :: rest, ended⟩
        (pushBatch interest b).length,
      ∃ q c₂, o = .ok q c₂ ∧ c₂.batches = rest) ∧
    Changes.stateAfter ⟨path, interest, [], b :: rest, ended⟩
        (pushBatch interest b).length = ⟨path, interest, [], rest, ended⟩ ∧
    (Changes.stateAfter ⟨path, interest, [], b :: rest, ended⟩
        (pushBatch interest b).length).wait =
      waitFrom path interest ended rest := by
  obtain ⟨q0, hlast⟩ : ∃ q0, (pushBatch interest b).getLast? = some q0 := by
    cases hq : (pushBatch interest b).getLast? with
    | none =>
      rw [List.getLast?_eq_none_iff] at hq
      exact absurd hq hk
    | some q0 => exact ⟨q0, rfl⟩
  have hwait : Changes.wait ⟨path, interest, [], b :: rest, ended⟩ =
      .ok q0 ⟨path, interest, (pushBatch interest b).dropLast, rest, ended⟩ := by
    have h0 : (⟨path, interest, [], b :: rest, ended⟩ : Changes).wait =
        waitFrom path interest ended (b :: rest) := rfl
    rw [h0]
    unfold waitFrom
    rw [if_pos hargs, hlast]
  have hlen : (pushBatch interest b).length =
      (pushBatch interest b).dropLast.length + 1 := by
    rw [List.length_dropLast]
    have hpos : 0 < (pushBatch interest b).length := List.length_pos.2 hk
    omega
  obtain ⟨hdr, hst⟩ :=
    waitN_drain path interest ended rest (pushBatch interest b).dropLast
  refine ⟨?_, ?_, ?_⟩
  · intro o ho
    rw [hlen] at ho
    simp only [Changes.waitN, hwait, WaitOutcome.state] at ho
    rcases List.mem_cons.1 ho with ho | ho
    · exact ⟨q0, _, ho, rfl⟩
    · exact hdr o ho
  · rw [hlen]
    simp only [Changes.stateAfter, hwait, WaitOutcome.state]
    exact hst
  · rw [hlen]
    simp only [Changes.stateAfter, hwait, WaitOutcome.state]
    rw [hst]
    exact rfl

/-- Witness for C4: a batch contributing three interesting names drains
in exactly three calls, leaving the remaining stream untouched. -/
theorem multiplexer_drains_batch_witness :
    (pushBatch trackedProps ex4batch).length = 3 ∧
    Changes.stateAfter
        ⟨"/a/b", trackedProps, [], ex4batch :: [exBatchAlias], false⟩
        (pushBatch trackedProps ex4batch).length =
      ⟨"/a/b", trackedProps, [], [exBatchAlias], false⟩ :=
  ⟨by decide, (multiplexer_drains_batch (by decide) (by decide)).2.1⟩

/-- C9: a batch listing the same interesting name in both its changed and
its invalidated list buffers that name twice, and two consecutive
`wait()` calls each return it once. -/
theorem batch_duplicate_name_yields_twice {path : String}
    {interest : List PropertyName} {ended : Bool} {rest : List Batch}
    {s : String} {n : PropertyName}
    (hs : PropertyName.fromStr s = some n) (hn : n ∈ interest) :
    pushBatch interest ⟨true, [s], [s]⟩ = [n, n] ∧
    Changes.wait ⟨path, interest, [], ⟨true, [s], [s]⟩ :: rest, ended⟩ =
      .ok n ⟨path, interest, [n], rest, ended⟩ ∧
    Changes.wait ⟨path, interest, [n], rest, ended⟩ =
      .ok n ⟨path, interest, [], rest, ended⟩ := by
  have hpb : pushBatch interest ⟨true, [s], [s]⟩ = [n, n] := by
    unfold pushBatch interestFilter
    simp [hs, hn]
  refine ⟨hpb, ?_, rfl⟩
  unfold Changes.wait waitFrom
  rw [if_pos rfl, hpb]
  rfl

/-- Witness for C9 at the `Alias` property. -/
theorem batch_duplicate_name_yields_twice_witness :
    pushBatch trackedProps ⟨true, ["Alias"], ["Alias"]⟩ = [.Alias, .Alias] ∧
    Changes.wait ⟨"/a/b", trackedProps, [],
        (⟨true, ["Alias"], ["Alias"]⟩ : Batch) :: [], false⟩ =
      .ok .Alias ⟨"/a/b", trackedProps, [.Alias], [], false⟩ ∧
    Changes.wait ⟨"/a/b", trackedProps, [.Alias], [], false⟩ =
      .ok .Alias ⟨"/a/b", trackedProps, [], [], false⟩ :=
  batch_duplicate_name_yields_twice rfl (by decide)

/-- C7: a remove event for a path not present in the collection is a
no-op: the filter maps it to no modification, consuming it leaves both
parallel collections unchanged, and the call keeps waiting on the
remaining sources. -/
theorem remove_unknown_noop {s : DeviceSet} {p : String} {hd : Bool}
    {rest : List BusEvent}
    (hmsgs : s.added_removed_stream.msgs = .interfacesRemoved p hd :: rest)
    (habs : ∀ d ∈ s.devices, d.path ≠ p) :
    s.filterEvent (.interfacesRemoved p hd) = none ∧
    (s.consumeMsg rest).devices = s.devices ∧
    (s.consumeMsg rest).change_streams = s.change_streams ∧
    ∀ o, NextMod (s.consumeMsg rest) o → NextMod s o := by
  have hfi : s.devices.findIdx? (fun dev => dev.path == p) = none :=
    List.findIdx?_eq_none_iff.2 (fun d hdm => by simpa using habs d hdm)
  have hnone : s.filterEvent (.interfacesRemoved p hd) = none := by
    simp only [DeviceSet.filterEvent]
    split
    · rw [hfi]
    · rfl
  exact ⟨hnone, rfl, rfl, fun o h => NextMod.busSkip hmsgs hnone h⟩

/-- Witness for C7 at a concrete set and unknown path. -/
theorem remove_unknown_noop_witness :
    ex7set.filterEvent (.interfacesRemoved "/a/c" true) = none ∧
    (ex7set.consumeMsg []).devices = ex7set.devices :=
  ⟨(remove_unknown_noop rfl (by decide)).1,
   (remove_unknown_noop rfl (by decide)).2.1⟩

/-- C8: an add event whose device-handle construction or subscription
opening fails maps to no modification; consuming it leaves the
collections unchanged, the call keeps waiting on the remaining sources,
and any terminal error reachable with the event queued is reachable
without it (so `change()` never errors because of the event itself). -/
theorem failed_add_skipped {s : DeviceSet} {p : String} {nf : Bool}
    {cs : Option (List Batch × Bool)} {rest : List BusEvent}
    (hmsgs : s.added_removed_stream.msgs = .interfacesAdded p true nf cs :: rest)
    (hfail : nf = true ∨ cs = none) :
    s.filterEvent (.interfacesAdded p true nf cs) = none ∧
    (s.consumeMsg rest).devices = s.devices ∧
    (s.consumeMsg rest).change_streams = s.change_streams ∧
    (∀ o, NextMod (s.consumeMsg rest) o → NextMod s o) ∧
    (∀ t, NextMod s (.ended t) → NextMod (s.consumeMsg rest) (.ended t)) := by
  have hnone : s.filterEvent (.interfacesAdded p true nf cs) = none := by
    simp only [DeviceSet.filterEvent]
    rcases hfail with hf | hf
    · subst hf
      split
      · rfl
      · rfl
    · subst hf
      split
      · split
        · rfl
        · rfl
      · rfl
  have hdrop : ∀ {s₁ : DeviceSet} {o : NextModOutcome}, NextMod s₁ o →
      ∀ t, o = .ended t →
      s₁.added_removed_stream.msgs = .interfacesAdded p true nf cs :: rest →
      NextMod (s₁.consumeMsg rest) (.ended t) := by
    intro s₁ o h
    induction h with
    | busSkip h1 h2 h3 ih =>
      intro t ho hm
      rw [hm] at h1
      injection h1 with he hr
      subst he
      subst hr
      rw [ho] at h3
      exact h3
    | busYield h1 h2 =>
      intro t ho _
      exact absurd ho (by simp)
    | busDropAdd h1 h2 h3 ih =>
      intro t ho hm
      rw [hm] at h1
      injection h1 with he hr
      subst hr
      rw [ho] at h3
      exact h3
    | devYield h1 h2 =>
      intro t ho _
      exact absurd ho (by simp)
    | devErrSkip h1 h2 h3 ih =>
      intro t ho hm
      exact NextMod.devErrSkip h1 h2 (ih t ho hm)
    | allEnded h1 h2 h3 =>
      intro t ho hm
      rw [hm] at h1
      exact absurd h1 (by simp)
  exact ⟨hnone, rfl, rfl, fun o h => NextMod.busSkip hmsgs hnone h,
    fun t h => hdrop h t rfl hmsgs⟩

/-- Witness for C8 at a concrete failed add event. -/
theorem failed_add_skipped_witness :
    ex8set.filterEvent (.interfacesAdded "/a/c" true true none) = none ∧
    (ex8set.consumeMsg []).devices = ex8set.devices :=
  ⟨(failed_add_skipped rfl (Or.inl rfl)).1,
   (failed_add_skipped rfl (Or.inl rfl)).2.1⟩

/-- C5: the parallel-collections invariant holds after `Adapter::device_set`
construction and is preserved by every `DeviceSet::change` outcome:
`devices` and `change_streams` always have the same paths index by index
(in particular the same length), with `Add` pushing to both and `Remove`
swap-removing the same index from both. -/
theorem parallel_invariant :
    (∀ (ap : String) (sig : MsgStream) (objs : List SnapshotEntry),
      (device_set ap sig objs).parallelInv) ∧
    (∀ (s : DeviceSet) (co : ChangeOutcome),
      s.parallelInv → Change s co → co.state.parallelInv) :=
  ⟨device_set_parallelInv, fun _ _ hp hc => change_parallelInv hc hp⟩

/-- Witness for C5: the invariant survives a concrete add. -/
theorem parallel_invariant_witness : DeviceSet.parallelInv ex1s2 :=
  parallel_invariant.2 ex1s1 (.added exDevB ex1s2) (by decide)
    (Change.add (NextMod.busYield rfl (by decide)))

/-- C6 counterexample: processing an add event for a path already present
does create a second entry with the same path — `change()` pushes
unconditionally, so the no-duplicate-paths invariant is not preserved by
such an event. -/
theorem duplicate_add_cex :
    DeviceSet.pathsNodup ex1s1 ∧
    Change ex1s1 (.added exDevB ex1s2) ∧
    ¬ DeviceSet.pathsNodup ex1s2 :=
  ⟨by decide, Change.add (NextMod.busYield rfl (by decide)), by decide⟩

/-- C6 (amended): remove, property-change and terminal outcomes of
`DeviceSet::change` preserve the no-duplicate-paths invariant
unconditionally, and an add outcome preserves it provided the added path
is not already present; an add event for an already-present path is the
one case that breaks it. -/
theorem nodup_preserved_amended {s : DeviceSet} {co : ChangeOutcome}
    (hnd : s.pathsNodup) (hc : Change s co) :
    (∀ (d : Device) (s₂ : DeviceSet), co = .added d s₂ →
      d.path ∉ s.devices.map Device.path → s₂.pathsNodup) ∧
    (∀ (d : Device) (s₂ : DeviceSet), co = .removed d s₂ → s₂.pathsNodup) ∧
    (∀ (d : Device) (q : PropertyName) (s₂ : DeviceSet),
      co = .changed d q s₂ → s₂.pathsNodup) ∧
    (∀ s₂ : DeviceSet, co = .error s₂ → s₂.pathsNodup) := by
  unfold DeviceSet.pathsNodup at *
  refine ⟨?_, ?_, ?_, ?_⟩
  · intro d s₂ heq hfresh
    cases hc with
    | @add s' device change hnm =>
      injection heq with hd hs
      subst hd
      subst hs
      rw [List.map_append, nextMod_yield_devices hnm, List.nodup_append]
      exact ⟨hnd, List.nodup_singleton _,
        List.disjoint_singleton.2 (by simpa using hfresh)⟩
    | remove h h' hnm => exact absurd heq (by simp)
    | changed h hnm => exact absurd heq (by simp)
    | error hnm => exact absurd heq (by simp)
  · intro d s₂ heq
    cases hc with
    | add hnm => exact absurd heq (by simp)
    | @remove s' i hlt hlt' hnm =>
      injection heq with hd hs
      subst hs
      rw [map_swapRemove]
      apply nodup_swapRemove
      rw [nextMod_yield_devices hnm]
      exact hnd
    | changed h hnm => exact absurd heq (by simp)
    | error hnm => exact absurd heq (by simp)
  · intro d q s₂ heq
    cases hc with
    | add hnm => exact absurd heq (by simp)
    | remove h h' hnm => exact absurd heq (by simp)
    | @changed s' i prop hlt hnm =>
      injection heq with hd hq hs
      subst hs
      rw [nextMod_yield_devices hnm]
      exact hnd
    | error hnm => exact absurd heq (by simp)
  · intro s₂ heq
    cases hc with
    | add hnm => exact absurd heq (by simp)
    | remove h h' hnm => exact absurd heq (by simp)
    | changed h hnm => exact absurd heq (by simp)
    | @error s' hnm =>
      injection heq with hs
      subst hs
      rw [nextMod_ended_devices hnm]
      exact hnd

/-- Witness for C6 (amended): a concrete remove keeps paths duplicate
free. -/
theorem nodup_preserved_amended_witness : DeviceSet.pathsNodup ex6wpost := by
  have hnm : NextMod ex6wset (.yield (.Remove 0) (ex6wset.consumeMsg [])) :=
    NextMod.busYield rfl (by decide)
  have hc : Change ex6wset (.removed exDevB ex6wpost) :=
    Change.remove (by decide) (by decide) hnm
  exact (nodup_preserved_amended (by decide) hc).2.1 exDevB ex6wpost rfl

/-- C3 counterexample: with the add/remove signal subscription already
ended, `change()` still returns a (non-error) `Changed` outcome when a
device multiplexer has a buffered property name — the terminal error does
not set in while any per-device source can still produce items. -/
theorem change_after_stream_end_cex :
    ex3set.added_removed_stream.msgs = [] ∧
    ex3set.added_removed_stream.ended = true ∧
    Change ex3set (.changed exDevB .Alias ex3post) ∧
    (ChangeOutcome.changed exDevB .Alias ex3post).isError = false := by
  refine ⟨rfl, rfl, ?_, rfl⟩
  have hnm : NextMod ex3set (.yield (.Change 0 .Alias) ex3post) :=
    NextMod.devYield rfl (by decide)
  exact Change.changed (by decide) hnm

/-- C3 (amended): once every event source of the `DeviceSet` is
permanently exhausted — the add/remove subscription has ended with no
message left and every per-device `wait` errs — each `change()` call
returns the terminal "event stream ended" error with the state unchanged,
that is the only reachable outcome (`change()` never silently resumes),
and every `DeviceStream::next` step after the replay buffer is drained is
that same error. -/
theorem change_terminal_after_exhaustion {s : DeviceSet} (hex : s.exhausted) :
    (∀ co, Change s co → co = .error s) ∧
    Change s (.error s) ∧
    (∀ (evs : List Ev) (st' : DeviceStream), Run ⟨[], s⟩ evs st' →
      st' = ⟨[], s⟩ ∧ ∀ e ∈ evs, e = .live (.error s)) := by
  have herr : ∀ co, Change s co → co = .error s := by
    intro co hc
    cases hc with
    | add hnm => exact absurd (nextMod_exhausted hnm hex) (by simp)
    | remove h h' hnm => exact absurd (nextMod_exhausted hnm hex) (by simp)
    | changed h hnm => exact absurd (nextMod_exhausted hnm hex) (by simp)
    | error hnm =>
      have hends := nextMod_exhausted hnm hex
      injection hends with hends
      rw [hends]
  refine ⟨herr, Change.error (NextMod.allEnded hex.1 hex.2.1 hex.2.2), ?_⟩
  intro evs
  induction evs with
  | nil =>
    intro st' h
    cases h
    exact ⟨rfl, by simp⟩
  | cons ev rest ih =>
    intro st' h
    cases h with
    | replay h1 _ => simp at h1
    | live h1 hchg h2 =>
      have hco := herr _ hchg
      subst hco
      obtain ⟨hst, hall⟩ := ih st' h2
      refine ⟨hst, ?_⟩
      intro e he
      rcases List.mem_cons.1 he with he | he
      · exact he
      · exact hall e he

/-- Witness for C3 (amended): a concrete exhausted set errors. -/
theorem change_terminal_after_exhaustion_witness : Change ex3eset (.error ex3eset) :=
  (change_terminal_after_exhaustion (by decide)).2.1

/-- C1 counterexample: after two add events for the same path `/a/b`,
consuming the remove for that path drops only one of the two duplicate
entries, so a later property change makes the stream yield a device whose
path was removed and never re-added afterwards. -/
theorem discovery_removed_yield_cex :
    Run (DeviceSet.into_device_stream ex1s0) ex1evs ⟨[], ex1s4⟩ ∧
    ex1evs[2]? = some (.live (.removed exDevB ex1s3)) ∧
    Ev.removesPath "/a/b" (.live (.removed exDevB ex1s3)) = true ∧
    ex1evs[3]? = some (.live (.changed exDevB .Alias ex1s4)) ∧
    Ev.yieldsPath "/a/b" (.live (.changed exDevB .Alias ex1s4)) = true ∧
    addsNone "/a/b" (ex1evs.drop 3) = true := by
  refine ⟨?_, by decide, by decide, by decide, by decide, by decide⟩
  have hc1 : Change ex1s0 (.added exDevB ex1s1) :=
    Change.add (NextMod.busYield rfl (by decide))
  have hc2 : Change ex1s1 (.added exDevB ex1s2) :=
    Change.add (NextMod.busYield rfl (by decide))
  have hnm3 : NextMod ex1s2 (.yield (.Remove 0) (ex1s2.consumeMsg [])) :=
    NextMod.busYield rfl (by decide)
  have hc3 : Change ex1s2 (.removed exDevB ex1s3) :=
    Change.remove (by decide) (by decide) hnm3
  have hnm4 : NextMod ex1s3 (.yield (.Change 0 .Alias) ex1s4) :=
    NextMod.devYield rfl (by decide)
  have hc4 : Change ex1s3 (.changed exDevB .Alias ex1s4) :=
    Change.changed (by decide) hnm4
  exact Run.live rfl hc1 (Run.live rfl hc2 (Run.live rfl hc3
    (Run.live rfl hc4 Run.nil)))

/-- C1 (amended): provided the initial set is duplicate free and no
consumed add event re-adds a path already present (each consumed `Added`
leaves its path unique in the collection), a `DeviceStream` run never
yields a device for a path `p` at a step after a `Removed` modification
for `p` was consumed, unless an `Added` for `p` is consumed in between
(up to and including the yielding step). -/
theorem discovery_no_yield_after_remove {st : DeviceStream} {evs : List Ev}
    {st' : DeviceStream} {p : String} {i j : Nat} {eI eJ : Ev}
    (hrun : Run st evs st')
    (hnd : st.set.pathsNodup)
    (hfresh : ∀ (d : Device) (s₁ : DeviceSet), Ev.live (.added d s₁) ∈ evs →
      (s₁.devices.map Device.path).count d.path ≤ 1)
    (hi : evs[i]? = some eI) (hrem : eI.removesPath p = true)
    (hij : i < j) (hj : evs[j]? = some eJ)
    (hnoadd : ∀ (k : Nat) (e : Ev), i < k → k ≤ j → evs[k]? = some e →
      e.addsPath p = false) :
    eJ.yieldsPath p = false := by
  have hsplit : evs.take (i+1) ++ evs.drop (i+1) = evs :=
    List.take_append_drop _ _
  rw [← hsplit] at hrun
  obtain ⟨mid, hA, hB⟩ := run_append_split hrun
  have htake : evs.take (i+1) = evs.take i ++ [eI] := by
    rw [List.take_succ, hi]
    rfl
  rw [htake] at hA
  obtain ⟨m₁, hA1, hA2⟩ := run_append_split hA
  have hnd1 : m₁.set.pathsNodup :=
    run_nodup hA1 hnd (fun d s₁ hm => hfresh d s₁ (List.mem_of_mem_take hm))
  cases hA2 with
  | replay h1 h2 => simp [Ev.removesPath] at hrem
  | live h1 hchg h2 =>
    cases h2
    cases hchg with
    | @add s' device change hnm => simp [Ev.removesPath] at hrem
    | @remove s' iR hlt hlt' hnm =>
      simp only [Ev.removesPath, beq_iff_eq] at hrem
      have hndm : (s'.devices.map Device.path).Nodup := by
        rw [nextMod_yield_devices hnm]
        exact hnd1
      have hlm : iR < (s'.devices.map Device.path).length := by
        rw [List.length_map]
        exact hlt
      have hget : (s'.devices.map Device.path)[iR] = p := by
        rw [List.getElem_map]
        exact hrem
      have habs : p ∉
          (ChangeOutcome.state (.removed (s'.devices.get ⟨iR, hlt⟩)
            {s' with devices := swapRemove s'.devices iR,
                     change_streams := swapRemove s'.change_streams iR})).devices.map
            Device.path := by
        simp only [ChangeOutcome.state]
        rw [map_swapRemove, ← hget]
        exact getElem_not_mem_swapRemove hlm hndm
      have hdsp : (evs.drop (i+1)).take (j-i) ++ (evs.drop (i+1)).drop (j-i) =
          evs.drop (i+1) := List.take_append_drop _ _
      rw [← hdsp] at hB
      obtain ⟨m₂, hB1, hB2⟩ := run_append_split hB
      have hnoaddT : ∀ e ∈ (evs.drop (i+1)).take (j-i),
          e.addsPath p = false := by
        intro e he
        rw [List.mem_iff_getElem] at he
        obtain ⟨r, hr, hre⟩ := he
        have hrj : r < j - i := by
          rw [List.length_take] at hr
          omega
        have hq : evs[i+1+r]? = some e := by
          have hq0 : ((evs.drop (i+1)).take (j-i))[r]? = some e := by
            rw [List.getElem?_eq_getElem hr, hre]
          rw [List.getElem?_take, if_pos hrj, List.getElem?_drop] at hq0
          exact hq0
        exact hnoadd (i+1+r) e (by omega) (by omega) hq
      have hnoy := run_no_yield_of_absent hB1 rfl habs hnoaddT
      have hjmem : eJ ∈ (evs.drop (i+1)).take (j-i) := by
        have hq : ((evs.drop (i+1)).take (j-i))[j-i-1]? = some eJ := by
          rw [List.getElem?_take, if_pos (by omega), List.getElem?_drop]
          have harith : i + 1 + (j - i - 1) = j := by omega
          rw [harith]
          exact hj
        exact List.getElem?_mem hq
      exact hnoy.1 eJ hjmem
    | @changed s' iR prop hlt hnm => simp [Ev.removesPath] at hrem
    | @error s' hnm => simp [Ev.removesPath] at hrem

/-- Witness for C1 (amended): in a duplicate-free two-device set, after
the remove for `/a/b` is consumed, the following yield is for `/a/a`,
not for the removed path. -/
theorem discovery_no_yield_after_remove_witness :
    Ev.yieldsPath "/a/b" (.live (.changed ex2dA .Alias exW2)) = false := by
  have hnmW1 : NextMod exW0 (.yield (.Remove 1) (exW0.consumeMsg [])) :=
    NextMod.busYield rfl (by decide)
  have hcW1 : Change exW0 (.removed exDevB exW1) :=
    Change.remove (by decide) (by decide) hnmW1
  have hnmW2 : NextMod exW1 (.yield (.Change 0 .Alias) exW2) :=
    NextMod.devYield rfl (by decide)
  have hcW2 : Change exW1 (.changed ex2dA .Alias exW2) :=
    Change.changed (by decide) hnmW2
  have hrunW : Run ⟨[], exW0⟩ exWevs ⟨[], exW2⟩ :=
    Run.live rfl hcW1 (Run.live rfl hcW2 Run.nil)
  have hfr : ∀ (d : Device) (s₁ : DeviceSet),
      Ev.live (.added d s₁) ∈ exWevs →
      (s₁.devices.map Device.path).count d.path ≤ 1 := by
    intro d s₁ hm
    simp [exWevs] at hm
  have hnoadd : ∀ (k : Nat) (e : Ev), 0 < k → k ≤ 1 → exWevs[k]? = some e →
      e.addsPath "/a/b" = false := by
    intro k e h1 h2 h3
    have hk : k = 1 := by omega
    subst hk
    simp [exWevs] at h3
    subst h3
    decide
  exact discovery_no_yield_after_remove hrunW (by decide) hfr
    (show exWevs[0]? = some (Ev.live (.removed exDevB exW1)) by decide)
    (by decide) (by decide)
    (show exWevs[1]? = some (Ev.live (.changed ex2dA .Alias exW2)) by decide)
    hnoadd

end Blues
